import Mathlib

/-!
# Verification of the deep-research streaming front-end core

Shallow embedding of the stream-consuming core of the repository:

* `src/frontend/components/repo-chat-dashboard.tsx`
  - `handleSubmit`'s read loop (line reassembly from chunks, `data: ` frame
    parsing, event dispatch over the session state),
  - `cleanLogWithGPT4Mini` (remote enrichment wrapper),
  - `parseRepoUrl`;
* `src/frontend/app/api/clean-log/route.ts`
  - `cleanLog` (the deterministic heuristic log summarizer).

Text is modeled as `List Char`, i.e. the sequence of code points after the
incremental UTF-8 decode performed by `TextDecoder` (`decoder.decode(value,
\x7b stream: true \x7d)` guarantees multi-byte sequences split across chunk
boundaries are reassembled before this layer sees them, so chunk boundaries
here are arbitrary code-point boundaries).  JavaScript platform builtins that
the source calls (`String.prototype.split`, `trim`, `substring`, `JSON.parse`,
`JSON.stringify`, template-literal string coercion, `new URL`) are embedded as
executable Lean functions modeling their observable behavior on the values
this code can produce (JSON numbers are modeled as integers; `\u` string
escapes and exotic URL corner cases are outside the model).
-/

namespace DeepResearch

/-- Convert a Lean string literal to the `List Char` text model. -/
def lit (s : String) : List Char := s.toList

/-! ## LineReassembler: `String.prototype.split` and the chunk loop

Source (`repo-chat-dashboard.tsx` lines 118-132):

```
let partialLine = '';
...
const chunk = partialLine + decoder.decode(value, \x7b stream: true \x7d);
const lines = chunk.split('\n');
partialLine = lines[lines.length - 1];
for (let i = 0; i < lines.length - 1; i++) ...
```
-/

/-- Model of JavaScript `s.split(sep)` for a single-character separator:
always returns a non-empty list; `"".split(c) = [""]`. -/
def jsSplitOn (sep : Char) : List Char → List (List Char)
  | [] => [[]]
  | c :: cs =>
    match jsSplitOn sep cs with
    | [] => [[c]]
    | l :: ls => if c = sep then [] :: l :: ls else (c :: l) :: ls

/-- `lines[lines.length - 1]` (defaulting to `""` on the impossible empty case). -/
def lastPart : List (List Char) → List Char
  | [] => []
  | [x] => x
  | _ :: xs => lastPart xs

/-- One call of the line reassembler: concatenate the stored remainder with the
new chunk, split on `'\n'`; all pieces but the last are the emitted complete
lines, the last piece is the new remainder.  Mirrors lines 129-132 of
`handleSubmit`. -/
def feed (rem chunk : List Char) : List (List Char) × List Char :=
  let lines := jsSplitOn '\n' (rem ++ chunk)
  (lines.dropLast, lastPart lines)

/-- Feed a sequence of chunks one at a time, starting from a remainder,
collecting all emitted lines in order.  Models the `while` loop's repeated
`reader.read()` calls. -/
def feedMany : List (List Char) → List Char → List (List Char) × List Char
  | [], rem => ([], rem)
  | c :: cs, rem =>
    let p := feed rem c
    let q := feedMany cs p.2
    (p.1 ++ q.1, q.2)

/-! ### Proof vehicle: a direct recursive characterization of `feed` -/

/-- Prepend a character to the first complete line of a split (or to the
remainder when there is no complete line). -/
def consFirst (c : Char) (p : List (List Char) × List Char) :
    List (List Char) × List Char :=
  match p.1 with
  | [] => ([], c :: p.2)
  | l :: ls => ((c :: l) :: ls, p.2)

/-- Direct recursive computation of (complete lines, remainder) of a text. -/
def splitParts : List Char → List (List Char) × List Char
  | [] => ([], [])
  | c :: cs =>
    if c = '\n' then ([] :: (splitParts cs).1, (splitParts cs).2)
    else consFirst c (splitParts cs)

/-- Merge a carried-over remainder into the first piece of a later split. -/
def mergeFirst (r : List Char) (p : List (List Char) × List Char) :
    List (List Char) × List Char :=
  match p.1 with
  | [] => ([], r ++ p.2)
  | l :: ls => ((r ++ l) :: ls, p.2)

/-! ## JSON values and the platform `JSON.parse` / `JSON.stringify`

The dispatch loop calls `JSON.parse(line.slice(6))`, the summarizer calls
`JSON.parse(logData)` and `JSON.stringify(...)`, and template literals coerce
values with the abstract `ToString` operation.  JSON numbers are modeled as
integers (fraction/exponent syntax and `\u` escapes make the model's parse
fail; no claim depends on them). -/

/-- The characters `\x7b` and `\x7d`. -/
def lbraceC : Char := Char.ofNat 123

def rbraceC : Char := Char.ofNat 125

inductive Json where
  | null : Json
  | bool : Bool → Json
  | num : Int → Json
  | str : List Char → Json
  | arr : List Json → Json
  | obj : List (List Char × Json) → Json

/-- JSON whitespace accepted by `JSON.parse` around tokens. -/
def isJsonWs (c : Char) : Bool := c = ' ' || c = '\t' || c = '\n' || c = '\r'

def skipJsonWs (cs : List Char) : List Char := cs.dropWhile isJsonWs

def isDigitChar (c : Char) : Bool := '0' ≤ c && c ≤ '9'

/-- Value of one JSON string escape character (`\u` escapes unmodeled). -/
def escDecode (c : Char) : Option Char :=
  if c = '"' then some '"'
  else if c = '\\' then some '\\'
  else if c = '/' then some '/'
  else if c = 'n' then some '\n'
  else if c = 't' then some '\t'
  else if c = 'r' then some '\r'
  else if c = 'b' then some (Char.ofNat 8)
  else if c = 'f' then some (Char.ofNat 12)
  else none

/-- Parse the body of a JSON string after the opening quote; returns the
decoded characters and the input after the closing quote. -/
def parseStringBody : Nat → List Char → Option (List Char × List Char)
  | 0, _ => none
  | _ + 1, [] => none
  | fuel + 1, c :: rest =>
    if c = '"' then some ([], rest)
    else if c = '\\' then
      match rest with
      | [] => none
      | e :: rest2 =>
        match escDecode e with
        | none => none
        | some ec =>
          match parseStringBody fuel rest2 with
          | none => none
          | some (s, r) => some (ec :: s, r)
    else if c.toNat < 32 then none
    else
      match parseStringBody fuel rest with
      | none => none
      | some (s, r) => some (c :: s, r)

def natOfDigits (ds : List Char) : Nat :=
  ds.foldl (fun a c => a * 10 + (c.toNat - 48)) 0

def parseNumCore (cs : List Char) : Option (Nat × List Char) :=
  let ds := cs.takeWhile isDigitChar
  let rest := cs.dropWhile isDigitChar
  if ds = [] then none
  else if ds.head? = some '0' && ds.length > 1 then none
  else
    match rest with
    | c :: _ =>
      if c = '.' || c = 'e' || c = 'E' then none else some (natOfDigits ds, rest)
    | [] => some (natOfDigits ds, [])

def parseNumber (cs : List Char) : Option (Json × List Char) :=
  match cs with
  | '-' :: rest => (parseNumCore rest).map fun p => (Json.num (-(p.1 : Int)), p.2)
  | _ => (parseNumCore cs).map fun p => (Json.num (p.1 : Int), p.2)

mutual

/-- Recursive-descent JSON value parser (fuel-indexed; callers supply ample
fuel, see `jsonParse`). -/
def parseValue : Nat → List Char → Option (Json × List Char)
  | 0, _ => none
  | fuel + 1, cs0 =>
    match skipJsonWs cs0 with
    | [] => none
    | c :: rest =>
      if c = '"' then
        match parseStringBody (rest.length + 1) rest with
        | none => none
        | some (s, r) => some (Json.str s, r)
      else if c = '[' then
        match skipJsonWs rest with
        | ']' :: r1 => some (Json.arr [], r1)
        | _ =>
          match parseElems fuel rest with
          | none => none
          | some (vs, r1) => some (Json.arr vs, r1)
      else if c = lbraceC then
        match skipJsonWs rest with
        | c1 :: r1 =>
          if c1 = rbraceC then some (Json.obj [], r1)
          else
            match parseMembers fuel rest with
            | none => none
            | some (ms, r2) => some (Json.obj ms, r2)
        | [] => none
      else if c = 't' then
        if (lit "rue").isPrefixOf rest then some (Json.bool true, rest.drop 3) else none
      else if c = 'f' then
        if (lit "alse").isPrefixOf rest then some (Json.bool false, rest.drop 4) else none
      else if c = 'n' then
        if (lit "ull").isPrefixOf rest then some (Json.null, rest.drop 3) else none
      else parseNumber (c :: rest)

/-- Parse `value (, value)* ]`. -/
def parseElems : Nat → List Char → Option (List Json × List Char)
  | 0, _ => none
  | fuel + 1, cs =>
    match parseValue fuel cs with
    | none => none
    | some (v, r) =>
      match skipJsonWs r with
      | ',' :: r2 =>
        match parseElems fuel r2 with
        | none => none
        | some (vs, r3) => some (v :: vs, r3)
      | ']' :: r2 => some ([v], r2)
      | _ => none

/-- Parse `"key" : value (, "key" : value)* \x7d`. -/
def parseMembers : Nat → List Char → Option (List (List Char × Json) × List Char)
  | 0, _ => none
  | fuel + 1, cs =>
    match skipJsonWs cs with
    | '"' :: r =>
      match parseStringBody (r.length + 1) r with
      | none => none
      | some (k, r1) =>
        match skipJsonWs r1 with
        | ':' :: r2 =>
          match parseValue fuel r2 with
          | none => none
          | some (v, r3) =>
            match skipJsonWs r3 with
            | ',' :: r4 =>
              match parseMembers fuel r4 with
              | none => none
              | some (ms, r5) => some ((k, v) :: ms, r5)
            | c :: r4 => if c = rbraceC then some ([(k, v)], r4) else none
            | [] => none
        | _ => none
    | _ => none

end

/-- Model of `JSON.parse`: whole-input parse, surrounding whitespace allowed;
`none` models a thrown `SyntaxError`. -/
def jsonParse (s : List Char) : Option Json :=
  match parseValue (2 * s.length + 2) s with
  | none => none
  | some (j, rest) => if skipJsonWs rest = [] then some j else none

/-- JavaScript property access `j.k` on a parsed JSON value: `none` models
`undefined` (also for property access on primitives); duplicate keys keep the
last occurrence, as `JSON.parse` does. -/
def Json.getField : Json → List Char → Option Json
  | .obj fields, k => fields.foldl (fun acc p => if p.1 = k then some p.2 else acc) none
  | _, _ => none

/-- JavaScript truthiness of a parsed JSON value. -/
def Json.truthy : Json → Bool
  | .null => false
  | .bool b => b
  | .num n => n != 0
  | .str s => !s.isEmpty
  | .arr _ => true
  | .obj _ => true

/-- Truthiness of a possibly-`undefined` property. -/
def truthyO : Option Json → Bool
  | none => false
  | some j => j.truthy

def Json.isStr : Json → Bool
  | .str _ => true
  | _ => false

/-- `JSON.stringify` escaping of one string character (rare control characters
are left unescaped by the model). -/
def escapeChar (c : Char) : List Char :=
  if c = '"' then ['\\', '"']
  else if c = '\\' then ['\\', '\\']
  else if c = '\n' then ['\\', 'n']
  else if c = '\r' then ['\\', 'r']
  else if c = '\t' then ['\\', 't']
  else [c]

def escapeChars (s : List Char) : List Char := (s.map escapeChar).flatten

mutual

/-- Model of `JSON.stringify` on parsed JSON values. -/
def Json.stringify : Json → List Char
  | .null => lit "null"
  | .bool true => lit "true"
  | .bool false => lit "false"
  | .num n => lit (toString n)
  | .str s => '"' :: (escapeChars s ++ ['"'])
  | .arr xs => '[' :: (stringifyElems xs ++ [']'])
  | .obj fs => lbraceC :: (stringifyFields fs ++ [rbraceC])

def stringifyElems : List Json → List Char
  | [] => []
  | [x] => Json.stringify x
  | x :: xs => Json.stringify x ++ ',' :: stringifyElems xs

def stringifyFields : List (List Char × Json) → List Char
  | [] => []
  | [p] => '"' :: (escapeChars p.1 ++ '"' :: ':' :: Json.stringify p.2)
  | p :: ps =>
    '"' :: (escapeChars p.1 ++ '"' :: ':' :: Json.stringify p.2) ++ ',' :: stringifyFields ps

end

mutual

/-- JavaScript string coercion of a value, as used by template literals:
strings stay as-is, arrays join their coerced elements with commas (`null`
elements coerce to the empty string), plain objects become
`[object Object]`. -/
def Json.jsToString : Json → List Char
  | .null => lit "null"
  | .bool true => lit "true"
  | .bool false => lit "false"
  | .num n => lit (toString n)
  | .str s => s
  | .arr xs => joinElems xs
  | .obj _ => lit "[object Object]"

def joinElems : List Json → List Char
  | [] => []
  | [Json.null] => []
  | [x] => Json.jsToString x
  | Json.null :: xs => ',' :: joinElems xs
  | x :: xs => Json.jsToString x ++ ',' :: joinElems xs

end

/-- String coercion of a possibly-`undefined` value (`undefined` coerces to
the string `undefined`, e.g. in `prev + eventData.content`). -/
def jsToStringU : Option Json → List Char
  | none => lit "undefined"
  | some j => j.jsToString

/-! ## LogSummarizer heuristic: `cleanLog` (`app/api/clean-log/route.ts` lines 27-76) -/

/-- `data.name.replace(/Tool$/, '')`: strip one trailing `Tool`. -/
def stripTool (s : List Char) : List Char :=
  if (lit "Tool").isSuffixOf s then s.take (s.length - 4) else s

/-- `${data.input.query || data.input}` (and the `path`/`symbol` variants):
the field's value if present and truthy, otherwise the whole input, coerced
to a string. -/
def fieldOrRaw (input : Json) (key : List Char) : List Char :=
  match input.getField key with
  | some q => if q.truthy then q.jsToString else input.jsToString
  | none => input.jsToString

/-- The catch branch of `cleanLog`:
`logData.substring(0, 100) + (logData.length > 100 ? '...' : '')`. -/
def cleanTrunc (logData : List Char) : List Char :=
  logData.take 100 ++ (if logData.length > 100 then lit "..." else [])

/-- Specification form of the truncation pattern used throughout `cleanLog`:
the first `cutoff` characters, with an ellipsis appended exactly when the
untruncated value is strictly longer than `cutoff`. -/
def ellipsized (cutoff : Nat) (v : List Char) : List Char :=
  v.take cutoff ++ (if v.length > cutoff then lit "..." else [])

/-- The tool-name dispatch of `cleanLog` (lines 36-58), with
`toolName = data.name.replace(/Tool$/, '')` and `input = data.input`. -/
def toolPhrase (toolName : List Char) (input : Json) : List Char :=
  if toolName = lit "Search" || toolName = lit "RipGrep" then
    lit "Searching for \"" ++ fieldOrRaw input (lit "query") ++ lit "\""
  else if toolName = lit "ViewFile" then
    lit "Reading file: " ++ fieldOrRaw input (lit "path")
  else if toolName = lit "ListDirectory" then
    lit "Listing directory: " ++ fieldOrRaw input (lit "path")
  else if toolName = lit "SemanticSearch" then
    lit "Performing semantic search for: \"" ++ fieldOrRaw input (lit "query") ++ lit "\""
  else if toolName = lit "RevealSymbol" then
    lit "Analyzing symbol: " ++ fieldOrRaw input (lit "symbol")
  else
    lit "Using " ++ toolName ++ lit " tool with input: " ++
      input.stringify.take 50 ++
      (if input.stringify.length > 50 then lit "..." else [])

/-- Body of `cleanLog`'s try-block after `JSON.parse` succeeded; `none` models
an exception thrown inside the try (property access on `null`, or `.replace`
on a truthy non-string `name`), to be caught by `cleanLog`. -/
def cleanLogStructured (data : Json) : Option (List Char) :=
  match data with
  | .null => none
  | _ =>
    if truthyO (data.getField (lit "name")) && truthyO (data.getField (lit "input")) then
      match data.getField (lit "name"), data.getField (lit "input") with
      | some (Json.str nm), some input => some (toolPhrase (stripTool nm) input)
      | _, _ => none
    else if truthyO (data.getField (lit "output")) then
      match data.getField (lit "output") with
      | some (Json.str out) =>
        some (lit "Completed with result: " ++ out.take 50 ++
          (if out.length > 50 then lit "..." else []))
      | some out =>
        some (lit "Completed with result: " ++ out.stringify.take 50 ++
          (if out.stringify.length > 50 then lit "..." else []))
      | none => none
    else
      some (lit "Processing: " ++ data.stringify.take 50 ++
        (if data.stringify.length > 50 then lit "..." else []))

/-- The heuristic log summarizer `cleanLog`. -/
def cleanLog (logData : List Char) : List Char :=
  match jsonParse logData with
  | none => cleanTrunc logData
  | some data =>
    match cleanLogStructured data with
    | some r => r
    | none => cleanTrunc logData

/-! ## `cleanLogWithGPT4Mini` (`repo-chat-dashboard.tsx` lines 11-31)

The outcome of the `fetch('/api/clean-log', ...)` round trip is the
environment's input to the function. -/

inductive EnrichOutcome where
  /-- The `fetch` call itself rejected (network failure). -/
  | fetchFailed : EnrichOutcome
  /-- `response.ok` was false (non-2xx status). -/
  | respNotOk : EnrichOutcome
  /-- `response.json()` rejected (malformed body). -/
  | bodyMalformed : EnrichOutcome
  /-- A parsed JSON response body. -/
  | respBody : Json → EnrichOutcome

/-- `cleanLogWithGPT4Mini`: on success return `data.content || logData`;
every failure is caught and `logData` is returned. -/
def cleanLogWithGPT4Mini (outcome : EnrichOutcome) (logData : List Char) : List Char :=
  match outcome with
  | .respBody body =>
    match body.getField (lit "content") with
    | some c => if c.truthy then c.jsToString else logData
    | none => logData
  | _ => logData

/-! ## EventDispatcher and the read loop (`repo-chat-dashboard.tsx` lines 56-181) -/

/-- The UI state touched by the dispatch loop.  `similarFiles` and `apiError`
hold the raw dispatched values (`none` in `similarFiles` would model a set
`undefined`; the outer `Option` of `apiError` distinguishes never-set). -/
structure SessionState where
  researchResult : List Char
  logs : List (List Char)
  similarFiles : Option Json
  apiError : Option (Option Json)
  isLoading : Bool

/-- State right before the read loop starts: `handleSubmit` reset all fields
and appended its three synthetic progress-log entries. -/
def freshState : SessionState :=
  { researchResult := []
    logs := [lit "Fetching codebase", lit "Initializing research tools for agent",
      lit "Looking through files"]
    similarFiles := some (Json.arr [])
    apiError := none
    isLoading := true }

/-- JavaScript strict equality `ev.type === t` of the `type` property against
a string literal: true exactly when the property is that string. -/
def typeIs (ev : Json) (t : List Char) : Bool :=
  match ev.getField (lit "type") with
  | some (Json.str u) => u = t
  | _ => false

/-- Dispatch one decoded event payload (lines 139-157).  The `Bool` is true
when the handler executed `return` (terminal transition).  The summarizer is
a parameter receiving `eventData.data`; the real loop passes
`cleanLogWithGPT4Mini` composed with `JSON.stringify`. -/
def dispatchEvent (summ : Option Json → List Char) (ev : Json) (s : SessionState) :
    SessionState × Bool :=
  match ev with
  | .null => (s, false)
  | _ =>
    if typeIs ev (lit "similar_files") then
      ({ s with similarFiles := ev.getField (lit "content"),
                logs := s.logs ++ [lit "Starting agent run"] }, false)
    else if typeIs ev (lit "content") then
      ({ s with researchResult :=
          s.researchResult ++ jsToStringU (ev.getField (lit "content")) }, false)
    else if typeIs ev (lit "error") then
      ({ s with researchResult := lit "Error: " ++ jsToStringU (ev.getField (lit "content")),
                apiError := some (ev.getField (lit "content")),
                isLoading := false }, true)
    else if typeIs ev (lit "complete") then
      ({ s with researchResult := jsToStringU (ev.getField (lit "content")),
                isLoading := false,
                logs := s.logs ++ [lit "Analysis complete"] }, true)
    else if typeIs ev (lit "on_tool_start") || typeIs ev (lit "on_tool_end") then
      ({ s with logs := s.logs ++ [summ (ev.getField (lit "data"))] }, false)
    else (s, false)

/-- `trim()` whitespace (the characters that can realistically occur here). -/
def isTrimWs (c : Char) : Bool :=
  isJsonWs c || c = Char.ofNat 11 || c = Char.ofNat 12

def jsTrim (s : List Char) : List Char :=
  ((s.dropWhile isTrimWs).reverse.dropWhile isTrimWs).reverse

/-- The `data: ` frame marker. -/
def dataMark : List Char := lit "data: "

/-- EventFrameParser: `line.trim()`, prefix check, `JSON.parse(line.slice(6))`;
`none` both for a non-matching line and for an undecodable payload (the
parse error is caught and logged, lines 158-160). -/
def lineEvent (rawLine : List Char) : Option Json :=
  let line := jsTrim rawLine
  if dataMark.isPrefixOf line then jsonParse (line.drop 6) else none

/-- Process one reassembled line (lines 134-161). -/
def stepLine (summ : Option Json → List Char) (rawLine : List Char) (s : SessionState) :
    SessionState × Bool :=
  match lineEvent rawLine with
  | none => (s, false)
  | some ev => dispatchEvent summ ev s

/-- The inner `for` loop over one chunk's complete lines; a terminal `return`
stops consumption immediately. -/
def runLines (summ : Option Json → List Char) :
    List (List Char) → SessionState → SessionState × Bool
  | [], s => (s, false)
  | l :: ls, s =>
    let r := stepLine summ l s
    if r.2 then r else runLines summ ls r.1

/-- The outer `while` read loop: feed each chunk through the line reassembler,
dispatch its complete lines, stop on terminal transition; the final remainder
is dropped when the stream ends. -/
def runChunks (summ : Option Json → List Char) :
    List (List Char) → List Char → SessionState → SessionState × Bool
  | [], _, s => (s, false)
  | c :: cs, rem, s =>
    let p := feed rem c
    let r := runLines summ p.1 s
    if r.2 then r else runChunks summ cs p.2 r.1

/-! ## `parseRepoUrl` (`repo-chat-dashboard.tsx` lines 45-54) and the
platform `new URL`

`new URL(input)` (no base) is modeled at the level the claims need: it
succeeds exactly when the input starts with a URL scheme (a letter followed
by letters/digits/`+`/`-`/`.` up to a `:`), and its `pathname` drops the
`//authority` part and anything from `?` or `#` on. -/

structure URLRec where
  pathname : List Char

def isSchemeChar (c : Char) : Bool :=
  c.isAlpha || isDigitChar c || c = '+' || c = '-' || c = '.'

def afterScheme : List Char → Option (List Char)
  | [] => none
  | c :: cs => if c = ':' then some cs else if isSchemeChar c then afterScheme cs else none

def isPathEnd (c : Char) : Bool := c = '?' || c = '#'

def urlPathname (rest : List Char) : List Char :=
  if (lit "//").isPrefixOf rest then
    ((rest.drop 2).dropWhile fun c => !(c = '/' || isPathEnd c)).takeWhile fun c => !isPathEnd c
  else rest.takeWhile fun c => !isPathEnd c

/-- Model of `new URL(input)`: `none` models a thrown `TypeError`. -/
def urlParse (input : List Char) : Option URLRec :=
  match input with
  | [] => none
  | c :: cs =>
    if c.isAlpha then (afterScheme cs).map fun rest => ⟨urlPathname rest⟩ else none

/-- `String.prototype.includes`. -/
def jsIncludes : List Char → List Char → Bool
  | [], needle => needle.isEmpty
  | h :: t, needle => needle.isPrefixOf (h :: t) || jsIncludes t needle

/-- `parseRepoUrl`: `none` models the uncaught `TypeError` from `new URL`.
`url.pathname.split('/').filter(Boolean)` keeps the non-empty path pieces. -/
def parseRepoUrl (input : List Char) : Option (List Char) :=
  if jsIncludes input (lit "github.com") then
    match urlParse input with
    | none => none
    | some url =>
      match (jsSplitOn '/' url.pathname).filter (fun p => !p.isEmpty) with
      | p0 :: p1 :: _ => some (p0 ++ '/' :: p1)
      | _ => some input
  else some input

theorem mergeFirst_nil (p : List (List Char) × List Char) : mergeFirst [] p = p := by
  obtain ⟨p1, p2⟩ := p
  cases p1 <;> simp [mergeFirst]

theorem consFirst_mergeFirst (c : Char) (r : List Char)
    (p : List (List Char) × List Char) :
    consFirst c (mergeFirst r p) = mergeFirst (c :: r) p := by
  obtain ⟨p1, p2⟩ := p
  cases p1 <;> simp [consFirst, mergeFirst]

theorem jsSplitOn_ne_nil (sep : Char) (s : List Char) : jsSplitOn sep s ≠ [] := by
  cases s with
  | nil => simp [jsSplitOn]
  | cons c cs =>
    simp only [jsSplitOn]
    rcases h : jsSplitOn sep cs with - | ⟨l, ls⟩
    · simp
    · by_cases hc : c = sep <;> simp [hc]

theorem splitParts_cons_newline (cs : List Char) :
    splitParts ('\n' :: cs) = ([] :: (splitParts cs).1, (splitParts cs).2) := by
  simp [splitParts]

theorem splitParts_cons_ne {c : Char} (h : c ≠ '\n') (cs : List Char) :
    splitParts (c :: cs) = consFirst c (splitParts cs) := by
  simp [splitParts, h]

theorem splitParts_eq_jsSplitOn (s : List Char) :
    splitParts s = ((jsSplitOn '\n' s).dropLast, lastPart (jsSplitOn '\n' s)) := by
  induction s with
  | nil => rfl
  | cons c cs ih =>
    simp only [splitParts, jsSplitOn, ih]
    rcases h : jsSplitOn '\n' cs with - | ⟨l, ls⟩
    · exact absurd h (jsSplitOn_ne_nil _ _)
    · by_cases hc : c = '\n'
      · simp only [hc, if_pos rfl]
        cases ls <;> simp [List.dropLast, lastPart]
      · simp only [if_neg hc, consFirst]
        cases ls <;> simp [List.dropLast, lastPart]

theorem feed_eq_splitParts (rem chunk : List Char) :
    feed rem chunk = splitParts (rem ++ chunk) := by
  rw [feed, splitParts_eq_jsSplitOn]

theorem splitParts_append (a b : List Char) :
    splitParts (a ++ b) =
      ((splitParts a).1 ++ (mergeFirst (splitParts a).2 (splitParts b)).1,
       (mergeFirst (splitParts a).2 (splitParts b)).2) := by
  induction a with
  | nil =>
    simp [splitParts, mergeFirst_nil]
  | cons c a ih =>
    by_cases hc : c = '\n'
    · subst hc
      rw [List.cons_append, splitParts_cons_newline, splitParts_cons_newline, ih]
      simp
    · rw [List.cons_append, splitParts_cons_ne hc, splitParts_cons_ne hc, ih]
      rcases ha : (splitParts a).1 with - | ⟨a1, as⟩
      · simp only [List.nil_append, Prod.mk.eta]
        rw [consFirst_mergeFirst]
        simp [consFirst, ha, Prod.mk.eta]
      · simp [consFirst, ha]

theorem splitParts_of_no_newline {s : List Char} (h : '\n' ∉ s) :
    splitParts s = ([], s) := by
  induction s with
  | nil => rfl
  | cons c cs ih =>
    have hc : c ≠ '\n' := fun hc => h (hc ▸ List.mem_cons_self c cs)
    have hcs : '\n' ∉ cs := fun hm => h (List.mem_cons_of_mem c hm)
    simp [splitParts, if_neg hc, ih hcs, consFirst]

theorem newline_not_mem_splitParts_rem (s : List Char) : '\n' ∉ (splitParts s).2 := by
  induction s with
  | nil => simp [splitParts]
  | cons c cs ih =>
    simp only [splitParts]
    by_cases hc : c = '\n'
    · simpa [hc] using ih
    · simp only [if_neg hc, consFirst]
      rcases h : (splitParts cs).1 with - | ⟨l, ls⟩
      · simp only []
        intro hm
        rcases List.mem_cons.mp hm with h1 | h2
        · exact hc h1.symm
        · exact ih h2
      · simpa using ih

theorem feedMany_eq_splitParts (cs : List (List Char)) :
    ∀ rem : List Char, '\n' ∉ rem →
      feedMany cs rem = splitParts (rem ++ cs.flatten) := by
  induction cs with
  | nil =>
    intro rem h
    simp [feedMany, splitParts_of_no_newline h]
  | cons c cs ih =>
    intro rem h
    have hfeed : feed rem c = splitParts (rem ++ c) := feed_eq_splitParts rem c
    have hrem : '\n' ∉ (splitParts (rem ++ c)).2 := newline_not_mem_splitParts_rem _
    simp only [feedMany, hfeed, List.flatten_cons]
    rw [ih _ hrem]
    rw [splitParts_append (splitParts (rem ++ c)).2 cs.flatten,
      splitParts_of_no_newline hrem]
    rw [show rem ++ (c ++ cs.flatten) = (rem ++ c) ++ cs.flatten by
      simp [List.append_assoc]]
    rw [splitParts_append (rem ++ c) cs.flatten]
    simp

/-- **C1.** Feeding an input through the line reassembler in arbitrarily split
chunks emits exactly the same ordered sequence of complete logical lines (and
leaves the same remainder) as feeding the entire input as one single chunk. -/
theorem chunking_invariance (chunks : List (List Char)) :
    feedMany chunks [] = feed [] chunks.flatten := by
  rw [feedMany_eq_splitParts chunks [] (by simp), feed_eq_splitParts]

/-! ## Loop lemmas -/

theorem runLines_append (summ : Option Json → List Char) (ls₁ ls₂ : List (List Char))
    (s : SessionState) :
    runLines summ (ls₁ ++ ls₂) s =
      if (runLines summ ls₁ s).2 then runLines summ ls₁ s
      else runLines summ ls₂ (runLines summ ls₁ s).1 := by
  induction ls₁ generalizing s with
  | nil => simp [runLines]
  | cons l ls ih =>
    simp only [List.cons_append, runLines]
    by_cases h : (stepLine summ l s).2 = true
    · simp [h]
    · simp only [Bool.not_eq_true] at h
      simp [h, ih]

theorem feedMany_append (cs₁ cs₂ : List (List Char)) (rem : List Char) :
    feedMany (cs₁ ++ cs₂) rem =
      ((feedMany cs₁ rem).1 ++ (feedMany cs₂ (feedMany cs₁ rem).2).1,
       (feedMany cs₂ (feedMany cs₁ rem).2).2) := by
  induction cs₁ generalizing rem with
  | nil => simp [feedMany]
  | cons c cs ih => simp [feedMany, ih]

theorem runChunks_eq_runLines (summ : Option Json → List Char) (cs : List (List Char))
    (rem : List Char) (s : SessionState) :
    runChunks summ cs rem s = runLines summ (feedMany cs rem).1 s := by
  induction cs generalizing rem s with
  | nil => simp [runChunks, feedMany, runLines]
  | cons c cs ih =>
    simp only [runChunks, feedMany]
    rw [runLines_append]
    by_cases h : (runLines summ (feed rem c).1 s).2 = true
    · simp [h]
    · simp only [Bool.not_eq_true] at h
      simp [h, ih]

theorem typeIs_true_iff (ev : Json) (t : List Char) :
    typeIs ev t = true ↔ ev.getField (lit "type") = some (Json.str t) := by
  unfold typeIs
  rcases h : ev.getField (lit "type") with - | j
  · simp
  · cases j <;> simp

theorem dispatchEvent_halt_type (summ : Option Json → List Char) (ev : Json)
    (s : SessionState) (h : (dispatchEvent summ ev s).2 = true) :
    ev.getField (lit "type") = some (Json.str (lit "error")) ∨
      ev.getField (lit "type") = some (Json.str (lit "complete")) := by
  by_cases h3 : typeIs ev (lit "error") = true
  · exact Or.inl ((typeIs_true_iff ev _).mp h3)
  by_cases h4 : typeIs ev (lit "complete") = true
  · exact Or.inr ((typeIs_true_iff ev _).mp h4)
  exfalso
  cases ev with
  | null => simp [dispatchEvent] at h
  | bool b =>
    simp only [dispatchEvent] at h
    split_ifs at h
  | num n =>
    simp only [dispatchEvent] at h
    split_ifs at h
  | str v =>
    simp only [dispatchEvent] at h
    split_ifs at h
  | arr xs =>
    simp only [dispatchEvent] at h
    split_ifs at h
  | obj fields =>
    simp only [dispatchEvent] at h
    split_ifs at h

/-- **C2.** Once a terminal event (`error` or `complete`) has been dispatched,
no further buffered line or later chunk changes the session state: the run of
the dispatch loop over any extension of the input equals the run that stopped
at the terminal transition, and the loop halts only on an `error` or
`complete` frame. -/
theorem terminal_halts_dispatch :
    (∀ (summ : Option Json → List Char) (ls₁ ls₂ : List (List Char)) (s : SessionState),
      (runLines summ ls₁ s).2 = true →
        runLines summ (ls₁ ++ ls₂) s = runLines summ ls₁ s) ∧
    (∀ (summ : Option Json → List Char) (cs₁ cs₂ : List (List Char)) (rem : List Char)
        (s : SessionState),
      (runChunks summ cs₁ rem s).2 = true →
        runChunks summ (cs₁ ++ cs₂) rem s = runChunks summ cs₁ rem s) ∧
    (∀ (summ : Option Json → List Char) (l : List Char) (s : SessionState),
      (stepLine summ l s).2 = true →
        ∃ j, lineEvent l = some j ∧
          (j.getField (lit "type") = some (Json.str (lit "error")) ∨
           j.getField (lit "type") = some (Json.str (lit "complete")))) := by
  refine ⟨?_, ?_, ?_⟩
  · intro summ ls₁ ls₂ s h
    rw [runLines_append, if_pos h]
  · intro summ cs₁ cs₂ rem s h
    rw [runChunks_eq_runLines] at h
    rw [runChunks_eq_runLines, runChunks_eq_runLines, feedMany_append,
      runLines_append, if_pos h]
  · intro summ l s h
    unfold stepLine at h
    rcases he : lineEvent l with - | j
    · rw [he] at h
      simp at h
    · rw [he] at h
      exact ⟨j, rfl, dispatchEvent_halt_type summ j s h⟩

/-- Closed instantiation of `terminal_halts_dispatch` at a concrete terminal
frame followed by a buffered `content` frame and a later chunk. -/
theorem terminal_halts_dispatch_witness :
    runLines (fun _ => []) ([lit "data: \x7b\"type\":\"complete\",\"content\":\"done\"\x7d"] ++
        [lit "data: \x7b\"type\":\"content\",\"content\":\"more\"\x7d"]) freshState =
      runLines (fun _ => []) [lit "data: \x7b\"type\":\"complete\",\"content\":\"done\"\x7d"]
        freshState ∧
    runChunks (fun _ => []) ([lit "data: \x7b\"type\":\"complete\",\"content\":\"done\"\x7d\n"] ++
        [lit "data: \x7b\"type\":\"content\",\"content\":\"more\"\x7d\n"]) [] freshState =
      runChunks (fun _ => []) [lit "data: \x7b\"type\":\"complete\",\"content\":\"done\"\x7d\n"]
        [] freshState ∧
    ∃ j, lineEvent (lit "data: \x7b\"type\":\"complete\",\"content\":\"done\"\x7d") = some j ∧
      (j.getField (lit "type") = some (Json.str (lit "error")) ∨
       j.getField (lit "type") = some (Json.str (lit "complete"))) :=
  ⟨terminal_halts_dispatch.1 (fun _ => [])
      [lit "data: \x7b\"type\":\"complete\",\"content\":\"done\"\x7d"]
      [lit "data: \x7b\"type\":\"content\",\"content\":\"more\"\x7d"] freshState (by rfl),
   terminal_halts_dispatch.2.1 (fun _ => [])
      [lit "data: \x7b\"type\":\"complete\",\"content\":\"done\"\x7d\n"]
      [lit "data: \x7b\"type\":\"content\",\"content\":\"more\"\x7d\n"] [] freshState (by rfl),
   terminal_halts_dispatch.2.2 (fun _ => [])
      (lit "data: \x7b\"type\":\"complete\",\"content\":\"done\"\x7d") freshState (by rfl)⟩

theorem typeIs_eq_of_getField {ev : Json} {u : List Char}
    (h : ev.getField (lit "type") = some (Json.str u)) (t : List Char) :
    typeIs ev t = decide (u = t) := by
  unfold typeIs
  rw [h]

theorem dispatchEvent_complete (summ : Option Json → List Char) (ev : Json)
    (s : SessionState) (h : ev.getField (lit "type") = some (Json.str (lit "complete"))) :
    dispatchEvent summ ev s =
      ({ s with researchResult := jsToStringU (ev.getField (lit "content")),
                isLoading := false,
                logs := s.logs ++ [lit "Analysis complete"] }, true) := by
  cases ev
  case null => simp [Json.getField] at h
  all_goals
    simp only [dispatchEvent, typeIs_eq_of_getField h]
    rw [if_neg (by decide), if_neg (by decide), if_neg (by decide), if_pos (by decide)]

/-- **C3.** Dispatching a `complete` event sets the accumulated answer to
exactly the event's payload text, independently of any previously accumulated
`content` text; in the concrete scenario `content "Hel"`, `content "lo"`,
`complete "Hello"` the accumulated answer is first `Hello` and the final
answer is exactly `Hello`, not `HelloHello`. -/
theorem complete_replaces_answer :
    (∀ (summ : Option Json → List Char) (ev : Json) (s : SessionState),
      ev.getField (lit "type") = some (Json.str (lit "complete")) →
        (dispatchEvent summ ev s).1.researchResult =
            jsToStringU (ev.getField (lit "content")) ∧
          (dispatchEvent summ ev s).2 = true) ∧
    (runLines (fun _ => [])
        [lit "data: \x7b\"type\":\"content\",\"content\":\"Hel\"\x7d",
         lit "data: \x7b\"type\":\"content\",\"content\":\"lo\"\x7d"]
        freshState).1.researchResult = lit "Hello" ∧
    (runLines (fun _ => [])
        [lit "data: \x7b\"type\":\"content\",\"content\":\"Hel\"\x7d",
         lit "data: \x7b\"type\":\"content\",\"content\":\"lo\"\x7d",
         lit "data: \x7b\"type\":\"complete\",\"content\":\"Hello\"\x7d"]
        freshState).1.researchResult = lit "Hello" ∧
    (runLines (fun _ => [])
        [lit "data: \x7b\"type\":\"content\",\"content\":\"Hel\"\x7d",
         lit "data: \x7b\"type\":\"content\",\"content\":\"lo\"\x7d",
         lit "data: \x7b\"type\":\"complete\",\"content\":\"Hello\"\x7d"]
        freshState).1.researchResult ≠ lit "HelloHello" := by
  refine ⟨?_, by decide, by decide, by decide⟩
  intro summ ev s h
  rw [dispatchEvent_complete summ ev s h]
  exact ⟨rfl, rfl⟩

/-- Closed instantiation of `complete_replaces_answer` at a concrete
`complete` event. -/
theorem complete_replaces_answer_witness :
    (dispatchEvent (fun _ => [])
        (Json.obj [(lit "type", Json.str (lit "complete")),
          (lit "content", Json.str (lit "done"))]) freshState).1.researchResult =
      jsToStringU ((Json.obj [(lit "type", Json.str (lit "complete")),
        (lit "content", Json.str (lit "done"))]).getField (lit "content")) ∧
    (dispatchEvent (fun _ => [])
        (Json.obj [(lit "type", Json.str (lit "complete")),
          (lit "content", Json.str (lit "done"))]) freshState).2 = true :=
  complete_replaces_answer.1 (fun _ => [])
    (Json.obj [(lit "type", Json.str (lit "complete")),
      (lit "content", Json.str (lit "done"))]) freshState (by rfl)

/-- **C5.** A line whose trimmed form does not start with `data: ` produces
no event frame and no state change; a line with the marker whose payload does
not decode as JSON also produces no event frame, does not abort, and a
following valid frame is still dispatched (concretely: a malformed line
followed by a valid `complete` frame leaves the first step untouched and
still reaches the terminal success state). -/
theorem malformed_frame_robust :
    (∀ (summ : Option Json → List Char) (l : List Char) (s : SessionState),
      dataMark.isPrefixOf (jsTrim l) = false → stepLine summ l s = (s, false)) ∧
    (∀ (summ : Option Json → List Char) (l : List Char) (s : SessionState),
      dataMark.isPrefixOf (jsTrim l) = true → jsonParse ((jsTrim l).drop 6) = none →
        stepLine summ l s = (s, false)) ∧
    stepLine (fun _ => []) (lit "data: \x7bbad json") freshState = (freshState, false) ∧
    (runLines (fun _ => []) [lit "data: \x7bbad json",
        lit "data: \x7b\"type\":\"complete\",\"content\":\"done\"\x7d"]
        freshState).1.researchResult = lit "done" ∧
    (runLines (fun _ => []) [lit "data: \x7bbad json",
        lit "data: \x7b\"type\":\"complete\",\"content\":\"done\"\x7d"]
        freshState).2 = true := by
  refine ⟨?_, ?_, by rfl, by decide, by rfl⟩
  · intro summ l s h
    simp [stepLine, lineEvent, h]
  · intro summ l s h1 h2
    simp [stepLine, lineEvent, h1, h2]

/-- Closed instantiation of `malformed_frame_robust`: a line without the
marker and a marked line with an undecodable payload. -/
theorem malformed_frame_robust_witness :
    stepLine (fun _ => []) (lit "hello") freshState = (freshState, false) ∧
    stepLine (fun _ => []) (lit "data: not json") freshState = (freshState, false) :=
  ⟨malformed_frame_robust.1 (fun _ => []) (lit "hello") freshState (by rfl),
   malformed_frame_robust.2.1 (fun _ => []) (lit "data: not json") freshState
     (by rfl) (by rfl)⟩

/-- **C9.** A trailing fragment not terminated by a newline is never emitted
by the line reassembler and never dispatched: a final chunk without a newline
emits no line, contributes no emitted line to the whole run, and leaves the
dispatch result of the session unchanged (the remainder is dropped at stream
end). -/
theorem trailing_fragment_dropped :
    (∀ rem c : List Char, '\n' ∉ rem → '\n' ∉ c → (feed rem c).1 = []) ∧
    (∀ (cs : List (List Char)) (c : List Char), '\n' ∉ c →
      (feedMany (cs ++ [c]) []).1 = (feedMany cs []).1) ∧
    (∀ (summ : Option Json → List Char) (s : SessionState) (cs : List (List Char))
        (c : List Char), '\n' ∉ c →
      runChunks summ (cs ++ [c]) [] s = runChunks summ cs [] s) := by
  have hfeed : ∀ rem c : List Char, '\n' ∉ rem → '\n' ∉ c → (feed rem c).1 = [] := by
    intro rem c h1 h2
    rw [feed_eq_splitParts, splitParts_of_no_newline (by
      intro hm
      rcases List.mem_append.mp hm with h | h
      · exact h1 h
      · exact h2 h)]
  have hmany : ∀ (cs : List (List Char)) (c : List Char), '\n' ∉ c →
      (feedMany (cs ++ [c]) []).1 = (feedMany cs []).1 := by
    intro cs c hc
    rw [feedMany_eq_splitParts _ [] (by simp), feedMany_eq_splitParts _ [] (by simp)]
    simp only [List.nil_append, List.flatten_append, List.flatten_cons, List.flatten_nil,
      List.append_nil]
    rw [splitParts_append cs.flatten c, splitParts_of_no_newline hc]
    simp [mergeFirst]
  refine ⟨hfeed, hmany, ?_⟩
  intro summ s cs c hc
  rw [runChunks_eq_runLines, runChunks_eq_runLines, hmany cs c hc]

/-- Closed instantiation of `trailing_fragment_dropped`: the unterminated
fragment `data: tail` at stream end is never emitted or dispatched. -/
theorem trailing_fragment_dropped_witness :
    (feed [] (lit "data: tail")).1 = [] ∧
    (feedMany ([lit "a\nb"] ++ [lit "data: tail"]) []).1 = (feedMany [lit "a\nb"] []).1 ∧
    runChunks (fun _ => []) ([lit "a\nb"] ++ [lit "data: tail"]) [] freshState =
      runChunks (fun _ => []) [lit "a\nb"] [] freshState :=
  ⟨trailing_fragment_dropped.1 [] (lit "data: tail") (by simp) (by decide),
   trailing_fragment_dropped.2.1 [lit "a\nb"] (lit "data: tail") (by decide),
   trailing_fragment_dropped.2.2 (fun _ => []) freshState [lit "a\nb"]
     (lit "data: tail") (by decide)⟩

/-! ## Lemmas about the heuristic summarizer -/

theorem litPre_append_ne_nil {p q : List Char} (hp : p ≠ []) : p ++ q ≠ [] := by
  intro h
  exact hp (List.append_eq_nil.mp h).1

theorem toolPhrase_ne_nil (tn : List Char) (inp : Json) : toolPhrase tn inp ≠ [] := by
  unfold toolPhrase
  split_ifs <;> (repeat apply litPre_append_ne_nil) <;> decide

theorem cleanTrunc_ne_nil {s : List Char} (hs : s ≠ []) : cleanTrunc s ≠ [] := by
  unfold cleanTrunc
  apply litPre_append_ne_nil
  cases s with
  | nil => exact absurd rfl hs
  | cons c cs =>
    intro h
    have h100 : (c :: cs).take 100 = c :: cs.take 99 := rfl
    rw [h100] at h
    cases h

theorem cleanLog_parsed {logData : List Char} {data : Json}
    (h : jsonParse logData = some data) :
    cleanLog logData =
      match cleanLogStructured data with
      | some r => r
      | none => cleanTrunc logData := by
  simp [cleanLog, h]

theorem cleanLogStructured_named {data : Json} {nm : List Char} {inp : Json}
    (hname : data.getField (lit "name") = some (Json.str nm)) (hnm : nm ≠ [])
    (hinput : data.getField (lit "input") = some inp) (hit : inp.truthy = true) :
    cleanLogStructured data = some (toolPhrase (stripTool nm) inp) := by
  have hne : (!nm.isEmpty) = true := by
    cases nm with
    | nil => exact absurd rfl hnm
    | cons a b => rfl
  cases data with
  | null => exact absurd hname (by simp [Json.getField])
  | bool b => exact absurd hname (by simp [Json.getField])
  | num n => exact absurd hname (by simp [Json.getField])
  | str v => exact absurd hname (by simp [Json.getField])
  | arr a => exact absurd hname (by simp [Json.getField])
  | obj fields =>
    simp only [cleanLogStructured]
    rw [hname, hinput]
    rw [if_pos (show (truthyO (some (Json.str nm)) && truthyO (some inp)) = true by
      show ((!nm.isEmpty) && inp.truthy) = true
      rw [hne, hit]
      rfl)]

theorem cleanLogStructured_output_str {data : Json} {o : List Char}
    (hname : data.getField (lit "name") = none)
    (hout : data.getField (lit "output") = some (Json.str o)) (ho : o ≠ []) :
    cleanLogStructured data = some (lit "Completed with result: " ++ o.take 50 ++
      (if o.length > 50 then lit "..." else [])) := by
  have hne : (!o.isEmpty) = true := by
    cases o with
    | nil => exact absurd rfl ho
    | cons a b => rfl
  cases data with
  | null => exact absurd hout (by simp [Json.getField])
  | bool b => exact absurd hout (by simp [Json.getField])
  | num n => exact absurd hout (by simp [Json.getField])
  | str v => exact absurd hout (by simp [Json.getField])
  | arr a => exact absurd hout (by simp [Json.getField])
  | obj fields =>
    simp only [cleanLogStructured]
    rw [hname, hout]
    rw [if_neg (by simp [truthyO]),
      if_pos (show truthyO (some (Json.str o)) = true by
        show (!o.isEmpty) = true
        exact hne)]

theorem cleanLogStructured_output_other {data out : Json}
    (hname : data.getField (lit "name") = none)
    (hout : data.getField (lit "output") = some out) (hot : out.truthy = true)
    (hns : out.isStr = false) :
    cleanLogStructured data = some (lit "Completed with result: " ++
      out.stringify.take 50 ++
      (if out.stringify.length > 50 then lit "..." else [])) := by
  cases data with
  | null => exact absurd hout (by simp [Json.getField])
  | bool b => exact absurd hout (by simp [Json.getField])
  | num n => exact absurd hout (by simp [Json.getField])
  | str v => exact absurd hout (by simp [Json.getField])
  | arr a => exact absurd hout (by simp [Json.getField])
  | obj fields =>
    simp only [cleanLogStructured]
    rw [hname, hout]
    rw [if_neg (by simp [truthyO]),
      if_pos (show truthyO (some out) = true by
        show out.truthy = true
        exact hot)]
    cases out with
    | null => simp [Json.truthy] at hot
    | str o => simp [Json.isStr] at hns
    | bool b => rfl
    | num n => rfl
    | arr a => rfl
    | obj fs => rfl

theorem cleanLogStructured_default {data : Json} (hnn : data ≠ Json.null)
    (hname : data.getField (lit "name") = none)
    (hout : data.getField (lit "output") = none) :
    cleanLogStructured data = some (lit "Processing: " ++ data.stringify.take 50 ++
      (if data.stringify.length > 50 then lit "..." else [])) := by
  cases data with
  | null => exact absurd rfl hnn
  | bool b => simp [cleanLogStructured, Json.getField, truthyO]
  | num n => simp [cleanLogStructured, Json.getField, truthyO]
  | str v => simp [cleanLogStructured, Json.getField, truthyO]
  | arr a => simp [cleanLogStructured, Json.getField, truthyO]
  | obj fields =>
    simp only [cleanLogStructured]
    rw [hname, hout]
    rw [if_neg (by simp [truthyO]), if_neg (by simp [truthyO])]

theorem cleanLogStructured_ne_nil {data : Json} {r : List Char}
    (h : cleanLogStructured data = some r) : r ≠ [] := by
  have hdef : ∀ d : Json, d ≠ Json.null →
      (lit "Processing: " ++ d.stringify.take 50 ++
        (if d.stringify.length > 50 then lit "..." else [])) ≠ [] := by
    intro d _
    repeat apply litPre_append_ne_nil
    decide
  cases data with
  | null => exact absurd h (by simp [cleanLogStructured])
  | obj fields =>
    simp only [cleanLogStructured] at h
    split at h
    · split at h
      all_goals try exact Option.noConfusion h
      all_goals rw [Option.some_inj] at h
      all_goals subst h
      all_goals exact toolPhrase_ne_nil _ _
    · split at h
      · split at h
        all_goals try exact Option.noConfusion h
        all_goals rw [Option.some_inj] at h
        all_goals subst h
        all_goals ((repeat apply litPre_append_ne_nil); decide)
      · rw [Option.some_inj] at h
        subst h
        repeat apply litPre_append_ne_nil
        decide
  | bool b =>
    rw [cleanLogStructured_default (fun hh => Json.noConfusion hh)
      (by simp [Json.getField]) (by simp [Json.getField]), Option.some_inj] at h
    subst h
    exact hdef _ (fun hh => Json.noConfusion hh)
  | num n =>
    rw [cleanLogStructured_default (fun hh => Json.noConfusion hh)
      (by simp [Json.getField]) (by simp [Json.getField]), Option.some_inj] at h
    subst h
    exact hdef _ (fun hh => Json.noConfusion hh)
  | str v =>
    rw [cleanLogStructured_default (fun hh => Json.noConfusion hh)
      (by simp [Json.getField]) (by simp [Json.getField]), Option.some_inj] at h
    subst h
    exact hdef _ (fun hh => Json.noConfusion hh)
  | arr a =>
    rw [cleanLogStructured_default (fun hh => Json.noConfusion hh)
      (by simp [Json.getField]) (by simp [Json.getField]), Option.some_inj] at h
    subst h
    exact hdef _ (fun hh => Json.noConfusion hh)

/-- **C6 is refuted at the empty input:** the heuristic summarizer returns
the empty string on the empty input (`JSON.parse('')` throws, and the catch
branch truncates the empty input to the empty string). -/
theorem heuristic_nonempty_cex : cleanLog [] = [] := rfl

/-- **C6 (amended).** The heuristic summarizer is a total function of its
input (exceptions inside the try-block are absorbed by the catch branch), and
for every non-empty input string its result is non-empty; on the empty input
(which the route's `!logData` guard rejects before calling it) it returns the
empty string. -/
theorem heuristic_nonempty : ∀ s : List Char, s ≠ [] → cleanLog s ≠ [] := by
  intro s hs
  cases hp : jsonParse s with
  | none =>
    simp only [cleanLog, hp]
    exact cleanTrunc_ne_nil hs
  | some data =>
    simp only [cleanLog, hp]
    cases hq : cleanLogStructured data with
    | none =>
      simp only [hq]
      exact cleanTrunc_ne_nil hs
    | some r =>
      simp only [hq]
      exact cleanLogStructured_ne_nil hq

/-- Closed instantiation of `heuristic_nonempty`. -/
theorem heuristic_nonempty_witness : cleanLog (lit "x") ≠ [] :=
  heuristic_nonempty (lit "x") (by decide)

/-- **C7.** Every truncating branch of the heuristic summarizer cuts its
value at exactly 50 characters (generic tool-input, string tool-output,
serialized tool-output, and generic record cases) or 100 characters (the
undecodable raw-input case), and `ellipsized` appends the ellipsis if and
only if the untruncated value strictly exceeds the cutoff. -/
theorem cleanLog_truncation :
    (∀ (n : Nat) (v : List Char),
      (v.length ≤ n → ellipsized n v = v.take n) ∧
      (v.length > n → ellipsized n v = v.take n ++ lit "...")) ∧
    (∀ (logData : List Char) (data inp : Json) (nm : List Char),
      jsonParse logData = some data →
      data.getField (lit "name") = some (Json.str nm) → nm ≠ [] →
      data.getField (lit "input") = some inp → inp.truthy = true →
      stripTool nm ≠ lit "Search" → stripTool nm ≠ lit "RipGrep" →
      stripTool nm ≠ lit "ViewFile" → stripTool nm ≠ lit "ListDirectory" →
      stripTool nm ≠ lit "SemanticSearch" → stripTool nm ≠ lit "RevealSymbol" →
      cleanLog logData = lit "Using " ++ stripTool nm ++ lit " tool with input: " ++
        ellipsized 50 inp.stringify) ∧
    (∀ (logData : List Char) (data : Json) (o : List Char),
      jsonParse logData = some data →
      data.getField (lit "name") = none →
      data.getField (lit "output") = some (Json.str o) → o ≠ [] →
      cleanLog logData = lit "Completed with result: " ++ ellipsized 50 o) ∧
    (∀ (logData : List Char) (data out : Json),
      jsonParse logData = some data →
      data.getField (lit "name") = none →
      data.getField (lit "output") = some out → out.truthy = true → out.isStr = false →
      cleanLog logData = lit "Completed with result: " ++ ellipsized 50 out.stringify) ∧
    (∀ (logData : List Char) (data : Json),
      jsonParse logData = some data → data ≠ Json.null →
      data.getField (lit "name") = none → data.getField (lit "output") = none →
      cleanLog logData = lit "Processing: " ++ ellipsized 50 data.stringify) ∧
    (∀ logData : List Char, jsonParse logData = none →
      cleanLog logData = ellipsized 100 logData) := by
  refine ⟨?_, ?_, ?_, ?_, ?_, ?_⟩
  · intro n v
    constructor
    · intro hle
      simp [ellipsized, Nat.not_lt.mpr hle]
    · intro hgt
      simp [ellipsized, hgt]
  · intro logData data inp nm hp hname hnm hinput hit h1 h2 h3 h4 h5 h6
    rw [cleanLog_parsed hp, cleanLogStructured_named hname hnm hinput hit]
    unfold toolPhrase
    rw [if_neg (by simp [h1, h2]), if_neg h3, if_neg h4, if_neg h5, if_neg h6]
    simp [ellipsized, List.append_assoc]
  · intro logData data o hp hname hout ho
    rw [cleanLog_parsed hp, cleanLogStructured_output_str hname hout ho]
    simp [ellipsized, List.append_assoc]
  · intro logData data out hp hname hout hot hns
    rw [cleanLog_parsed hp, cleanLogStructured_output_other hname hout hot hns]
    simp [ellipsized, List.append_assoc]
  · intro logData data hp hnn hname hout
    rw [cleanLog_parsed hp, cleanLogStructured_default hnn hname hout]
    simp [ellipsized, List.append_assoc]
  · intro logData hp
    simp [cleanLog, hp, cleanTrunc, ellipsized]

/-- Closed instantiations of every branch of `cleanLog_truncation`. -/
theorem cleanLog_truncation_witness :
    ellipsized 2 (lit "abc") = (lit "abc").take 2 ++ lit "..." ∧
    cleanLog (lit "\x7b\"name\":\"FooTool\",\"input\":\"xyz\"\x7d") =
      lit "Using " ++ stripTool (lit "FooTool") ++ lit " tool with input: " ++
        ellipsized 50 (Json.str (lit "xyz")).stringify ∧
    cleanLog (lit "\x7b\"output\":\"ok\"\x7d") =
      lit "Completed with result: " ++ ellipsized 50 (lit "ok") ∧
    cleanLog (lit "\x7b\"output\":[\"x\"]\x7d") =
      lit "Completed with result: " ++ ellipsized 50 (Json.arr [Json.str (lit "x")]).stringify ∧
    cleanLog (lit "\x7b\"zzz\":true\x7d") =
      lit "Processing: " ++
        ellipsized 50 (Json.obj [(lit "zzz", Json.bool true)]).stringify ∧
    cleanLog (lit "not json") = ellipsized 100 (lit "not json") :=
  ⟨(cleanLog_truncation.1 2 (lit "abc")).2 (by decide),
   cleanLog_truncation.2.1 (lit "\x7b\"name\":\"FooTool\",\"input\":\"xyz\"\x7d")
     (Json.obj [(lit "name", Json.str (lit "FooTool")), (lit "input", Json.str (lit "xyz"))])
     (Json.str (lit "xyz")) (lit "FooTool") (by rfl) (by rfl) (by decide) (by rfl) (by rfl)
     (by decide) (by decide) (by decide) (by decide) (by decide) (by decide),
   cleanLog_truncation.2.2.1 (lit "\x7b\"output\":\"ok\"\x7d")
     (Json.obj [(lit "output", Json.str (lit "ok"))]) (lit "ok")
     (by rfl) (by rfl) (by rfl) (by decide),
   cleanLog_truncation.2.2.2.1 (lit "\x7b\"output\":[\"x\"]\x7d")
     (Json.obj [(lit "output", Json.arr [Json.str (lit "x")])])
     (Json.arr [Json.str (lit "x")]) (by rfl) (by rfl) (by rfl) (by rfl) (by rfl),
   cleanLog_truncation.2.2.2.2.1 (lit "\x7b\"zzz\":true\x7d")
     (Json.obj [(lit "zzz", Json.bool true)]) (by rfl)
     (fun hh => Json.noConfusion hh) (by rfl) (by rfl),
   cleanLog_truncation.2.2.2.2.2 (lit "not json") (by rfl)⟩

/-- **C8.** For a record whose `name` strips (over the `Tool` suffix) to
`Search` or `RipGrep`, with a truthy `input` carrying a truthy `query` field,
the heuristic summarizer returns exactly
`Searching for "<query>"` (with the query coerced to a string). -/
theorem search_tool_summary :
    ∀ (logData : List Char) (data inp q : Json) (nm : List Char),
      jsonParse logData = some data →
      data.getField (lit "name") = some (Json.str nm) →
      (stripTool nm = lit "Search" ∨ stripTool nm = lit "RipGrep") →
      data.getField (lit "input") = some inp → inp.truthy = true →
      inp.getField (lit "query") = some q → q.truthy = true →
      cleanLog logData = lit "Searching for \"" ++ q.jsToString ++ lit "\"" := by
  intro logData data inp q nm hp hname hlab hinput hit hq hqt
  have hnm : nm ≠ [] := by
    rintro rfl
    rcases hlab with h | h <;> exact absurd h (by decide)
  rw [cleanLog_parsed hp, cleanLogStructured_named hname hnm hinput hit]
  unfold toolPhrase
  rw [if_pos (show (decide (stripTool nm = lit "Search") ||
      decide (stripTool nm = lit "RipGrep")) = true by
    rcases hlab with h | h <;> simp [h])]
  unfold fieldOrRaw
  rw [hq]
  simp [hqt]

/-- Closed instantiation of `search_tool_summary` at the record
`\x7b"name":"SearchTool","input":\x7b"query":"parseRepoUrl"\x7d\x7d`. -/
theorem search_tool_summary_witness :
    cleanLog (lit "\x7b\"name\":\"SearchTool\",\"input\":\x7b\"query\":\"parseRepoUrl\"\x7d\x7d") =
      lit "Searching for \"parseRepoUrl\"" := by
  rw [search_tool_summary
    (lit "\x7b\"name\":\"SearchTool\",\"input\":\x7b\"query\":\"parseRepoUrl\"\x7d\x7d")
    (Json.obj [(lit "name", Json.str (lit "SearchTool")),
      (lit "input", Json.obj [(lit "query", Json.str (lit "parseRepoUrl"))])])
    (Json.obj [(lit "query", Json.str (lit "parseRepoUrl"))])
    (Json.str (lit "parseRepoUrl")) (lit "SearchTool")
    (by rfl) (by rfl) (Or.inl (by decide)) (by rfl) (by rfl) (by rfl) (by rfl)]
  decide

/-- **C4 is refuted:** when the enrichment round trip fails, the summary the
dispatcher appends is the raw serialized record, which differs from the
heuristic classifier's result on a concrete tool-result record. -/
theorem enrich_failure_cex :
    cleanLogWithGPT4Mini EnrichOutcome.fetchFailed (lit "\x7b\"output\":\"ok\"\x7d") =
      lit "\x7b\"output\":\"ok\"\x7d" ∧
    cleanLog (lit "\x7b\"output\":\"ok\"\x7d") = lit "Completed with result: ok" ∧
    cleanLogWithGPT4Mini EnrichOutcome.fetchFailed (lit "\x7b\"output\":\"ok\"\x7d") ≠
      cleanLog (lit "\x7b\"output\":\"ok\"\x7d") :=
  ⟨rfl, by decide, by decide⟩

/-- **C4 (amended).** When the enrichment call fails in any way (network
error, non-2xx response, malformed body, or a body without truthy `content`),
`cleanLogWithGPT4Mini` returns the raw serialized record (the heuristic
classifier runs only server-side on the success path), and the failure is
never surfaced: dispatching the tool event only appends the summarizer's
result to the progress log, leaving answer text and error state untouched. -/
theorem enrich_failure_returns_raw :
    (∀ d : List Char, cleanLogWithGPT4Mini EnrichOutcome.fetchFailed d = d) ∧
    (∀ d : List Char, cleanLogWithGPT4Mini EnrichOutcome.respNotOk d = d) ∧
    (∀ d : List Char, cleanLogWithGPT4Mini EnrichOutcome.bodyMalformed d = d) ∧
    (∀ (d : List Char) (body : Json), body.getField (lit "content") = none →
      cleanLogWithGPT4Mini (EnrichOutcome.respBody body) d = d) ∧
    (∀ (summ : Option Json → List Char) (ev : Json) (s : SessionState) (t : List Char),
      ev.getField (lit "type") = some (Json.str t) →
      (t = lit "on_tool_start" ∨ t = lit "on_tool_end") →
      dispatchEvent summ ev s =
        ({ s with logs := s.logs ++ [summ (ev.getField (lit "data"))] }, false)) := by
  refine ⟨fun d => rfl, fun d => rfl, fun d => rfl, ?_, ?_⟩
  · intro d body h
    simp [cleanLogWithGPT4Mini, h]
  · intro summ ev s t hty htool
    cases ev
    case null => simp [Json.getField] at hty
    all_goals
      simp only [dispatchEvent, typeIs_eq_of_getField hty]
      rcases htool with rfl | rfl <;>
        rw [if_neg (by decide), if_neg (by decide), if_neg (by decide), if_neg (by decide),
          if_pos (by decide)]

/-- Closed instantiations of `enrich_failure_returns_raw`. -/
theorem enrich_failure_returns_raw_witness :
    cleanLogWithGPT4Mini EnrichOutcome.respNotOk (lit "log") = lit "log" ∧
    cleanLogWithGPT4Mini (EnrichOutcome.respBody (Json.obj [])) (lit "log") = lit "log" ∧
    dispatchEvent (fun _ => lit "summary")
        (Json.obj [(lit "type", Json.str (lit "on_tool_start")),
          (lit "data", Json.str (lit "rec"))]) freshState =
      ({ freshState with logs := freshState.logs ++
          [(fun _ => lit "summary")
            ((Json.obj [(lit "type", Json.str (lit "on_tool_start")),
              (lit "data", Json.str (lit "rec"))]).getField (lit "data"))] }, false) :=
  ⟨enrich_failure_returns_raw.2.1 (lit "log"),
   enrich_failure_returns_raw.2.2.2.1 (lit "log") (Json.obj []) rfl,
   enrich_failure_returns_raw.2.2.2.2 (fun _ => lit "summary")
     (Json.obj [(lit "type", Json.str (lit "on_tool_start")),
       (lit "data", Json.str (lit "rec"))]) freshState (lit "on_tool_start")
     (by rfl) (Or.inl rfl)⟩

/-- **C10.** `parseRepoUrl` raises (models as `none`) exactly on inputs that
contain `github.com` but do not parse as an absolute URL (no scheme), such as
`github.com/owner/repo`; inputs without `github.com` are returned unchanged,
and inputs containing `github.com` that do parse as a URL return normally. -/
theorem parseRepoUrl_requires_scheme :
    (∀ s : List Char, jsIncludes s (lit "github.com") = false → parseRepoUrl s = some s) ∧
    (∀ s : List Char, jsIncludes s (lit "github.com") = true → urlParse s = none →
      parseRepoUrl s = none) ∧
    (∀ (s : List Char) (u : URLRec), jsIncludes s (lit "github.com") = true →
      urlParse s = some u → ∃ r, parseRepoUrl s = some r) ∧
    parseRepoUrl (lit "github.com/owner/repo") = none := by
  refine ⟨?_, ?_, ?_, by rfl⟩
  · intro s h
    simp [parseRepoUrl, h]
  · intro s h1 h2
    simp [parseRepoUrl, h1, h2]
  · intro s u h1 h2
    rcases hsp : (jsSplitOn '/' u.pathname).filter (fun p => !p.isEmpty) with - | ⟨p0, ps⟩
    · exact ⟨s, by simp [parseRepoUrl, h1, h2, hsp]⟩
    · cases ps with
      | nil => exact ⟨s, by simp [parseRepoUrl, h1, h2, hsp]⟩
      | cons p1 ps2 => exact ⟨p0 ++ '/' :: p1, by simp [parseRepoUrl, h1, h2, hsp]⟩

/-- Closed instantiations of `parseRepoUrl_requires_scheme`. -/
theorem parseRepoUrl_requires_scheme_witness :
    parseRepoUrl (lit "gitlab.com/o/r") = some (lit "gitlab.com/o/r") ∧
    parseRepoUrl (lit "github.com/owner/repo") = none ∧
    (∃ r, parseRepoUrl (lit "https://github.com/owner/repo") = some r) :=
  ⟨parseRepoUrl_requires_scheme.1 (lit "gitlab.com/o/r") (by rfl),
   parseRepoUrl_requires_scheme.2.1 (lit "github.com/owner/repo") (by rfl) (by rfl),
   parseRepoUrl_requires_scheme.2.2.1 (lit "https://github.com/owner/repo")
     ⟨lit "/owner/repo"⟩ (by rfl) (by rfl)⟩

end DeepResearch
